import Mathlib

/-!
Shallow embedding of the Hebrew-gematria service
(`backend.py`, `seed_db.py`, `api.py`) and verification of its
specification.  Python strings are modelled as `List Char` (one entry per
Unicode code point), Python `dict` literals as ordered association lists,
Python `int` sums of the positive letter values as `Nat`, and code that can
raise (`dict` indexing, the request validators, the database's uniqueness
constraint) as `Option`/`Except`.
-/

/- ================= backend.py ================= -/

/-- backend.GEMATRIA_MAP: the canonical Hebrew gematria map (Mispar Gadol),
as the ordered key-value pairs of the Python dict literal. -/
def GEMATRIA_MAP : List (Char × Nat) :=
  [('א', 1), ('ב', 2), ('ג', 3), ('ד', 4), ('ה', 5),
   ('ו', 6), ('ז', 7), ('ח', 8), ('ט', 9),
   ('י', 10), ('כ', 20), ('ל', 30), ('מ', 40), ('נ', 50),
   ('ס', 60), ('ע', 70), ('פ', 80), ('צ', 90),
   ('ק', 100), ('ר', 200), ('ש', 300), ('ת', 400),
   ('ך', 20), ('ם', 40), ('ן', 50), ('ף', 80), ('ץ', 90)]

/-- Lookup in an association-list model of a Python dict: `some v` when the
key is present (dict `d[k]` / `d.get(k)` success), `none` when absent. -/
def dictGet (m : List (Char × Nat)) (c : Char) : Option Nat :=
  (m.find? (fun p => p.1 == c)).map (fun p => p.2)

/-- Membership in the regex character class of backend.NIQQUD_AND_TAAMIM,
`[֑-ׇ]` (Hebrew vowel points and cantillation marks). -/
def isNiqqudOrTaamim (c : Char) : Bool :=
  decide (0x0591 ≤ c.toNat ∧ c.toNat ≤ 0x05C7)

/-- Membership in the complement of backend.NON_HEBREW, i.e. the regex class
`[א-תךםןףץ]` (characters the second
substitution keeps). -/
def isHebrewKeep (c : Char) : Bool :=
  decide ((0x05D0 ≤ c.toNat ∧ c.toNat ≤ 0x05EA) ∨ c.toNat = 0x05DA ∨
    c.toNat = 0x05DD ∨ c.toNat = 0x05DF ∨ c.toNat = 0x05E3 ∨ c.toNat = 0x05E5)

/-- backend._normalize: `NIQQUD_AND_TAAMIM.sub('', text)` followed by
`NON_HEBREW.sub('', text)`.  `re.sub` of a single character class with the
empty string is a character filter. -/
def _normalize (text : List Char) : List Char :=
  (text.filter (fun c => !isNiqqudOrTaamim c)).filter isHebrewKeep

/-- backend.get_gematria: normalize, then sum `GEMATRIA_MAP.get(ch, 0)`
over the characters (`.get` with default 0 never raises). -/
def get_gematria (text : List Char) : Nat :=
  ((_normalize text).map (fun c => (dictGet GEMATRIA_MAP c).getD 0)).sum

/-- The list comprehension `[(ch, GEMATRIA_MAP[ch]) for ch in text]`:
`dict` indexing raises KeyError on a missing key, modelled as `none`. -/
def lookupPairs : List Char → Option (List (Char × Nat))
  | [] => some []
  | c :: cs =>
    match dictGet GEMATRIA_MAP c, lookupPairs cs with
    | some v, some rest => some ((c, v) :: rest)
    | _, _ => none

/-- backend.gematria_breakdown: normalize, then pair each character with its
value by raw dict indexing. -/
def gematria_breakdown (text : List Char) : Option (List (Char × Nat)) :=
  lookupPairs (_normalize text)

/- ================= seed_db.py ================= -/

namespace seed_db

/-- Membership in the regex class `[א-ת]` of seed_db.normalize: the literal
range U+05D0 through U+05EA. -/
def seedKeep (c : Char) : Bool :=
  decide (0x05D0 ≤ c.toNat ∧ c.toNat ≤ 0x05EA)

/-- seed_db.normalize: `re.sub(r'[^א-ת]', '', word)`, a filter keeping only
characters in the literal range. -/
def normalize (word : List Char) : List Char :=
  word.filter seedKeep

/-- seed_db.gematria_values: the seeding script's own copy of the letter
table, in its own literal order. -/
def gematria_values : List (Char × Nat) :=
  [('א', 1), ('ב', 2), ('ג', 3), ('ד', 4), ('ה', 5), ('ו', 6), ('ז', 7),
   ('ח', 8), ('ט', 9),
   ('י', 10), ('כ', 20), ('ך', 20), ('ל', 30), ('מ', 40), ('ם', 40),
   ('נ', 50), ('ן', 50),
   ('ס', 60), ('ע', 70), ('פ', 80), ('ף', 80), ('צ', 90), ('ץ', 90),
   ('ק', 100), ('ר', 200), ('ש', 300), ('ת', 400)]

/-- The generator sum `sum(gematria_values[char] for char in word)`: raw
dict indexing, so a missing key raises (modelled as `none`). -/
def sumValues : List Char → Option Nat
  | [] => some 0
  | c :: cs =>
    match dictGet gematria_values c, sumValues cs with
    | some v, some s => some (v + s)
    | _, _ => none

/-- seed_db.gematria_value. -/
def gematria_value (word : List Char) : Option Nat :=
  sumValues word

end seed_db

/- ================= the Lookup Store ================= -/

/-- A persisted Word Record (`gematria_words` row; `GematriaWords` in
seed_db.py, `GematriaWord` in api.py).  The autoincrement id is dropped;
`created_at` is an abstract monotone timestamp. -/
structure GematriaWord where
  text : List Char
  normalized : List Char
  gematria : Nat
  created_at : Nat
deriving DecidableEq, Repr

/-- The relational table, in insertion order. -/
abbrev Store := List GematriaWord

/-- Insertion under the store's unique constraint on `normalized`
(`unique=True`): a duplicate violates the constraint and the insert fails. -/
def insertWord (st : Store) (r : GematriaWord) : Option Store :=
  if st.any (fun q => q.normalized == r.normalized) then none
  else some (st ++ [r])

/-- Python `str.strip()`: drop leading and trailing whitespace. -/
def pyStrip (s : List Char) : List Char :=
  ((s.dropWhile Char.isWhitespace).reverse.dropWhile Char.isWhitespace).reverse

/-- One iteration of the loop in seed_db.main: normalize the line, score it,
and insert the record (`text=line.strip()`, `normalized=stripped_word`,
`gematria=value`); `t` is the record's creation timestamp.  There is no
test that skips a line, so every line — including one whose normalized form
is empty — reaches the insert. -/
def seedLine (st : Store) (line : List Char) (t : Nat) : Option Store :=
  match seed_db.gematria_value (seed_db.normalize line) with
  | none => none
  | some v =>
    insertWord st
      { text := pyStrip line, normalized := seed_db.normalize line,
        gematria := v, created_at := t }

/-- The loop of seed_db.main over the remaining lines of words.txt. -/
def seedMainGo (st : Store) (t : Nat) : List (List Char) → Option Store
  | [] => some st
  | line :: rest =>
    match seedLine st line t with
    | none => none
    | some st' => seedMainGo st' (t + 1) rest

/-- seed_db.main: ingest every line of words.txt into an empty store. -/
def seedMain (lines : List (List Char)) : Option Store :=
  seedMainGo [] 0 lines

/- ================= api.py ================= -/

/-- api.GematriaResponse. -/
structure GematriaResponse where
  word : List Char
  normalized : List Char
  gematria : Nat
deriving DecidableEq, Repr

/-- api.TopWordsResponse. -/
structure TopWordsResponse where
  gematria : Nat
  count : Nat
  words : List GematriaResponse
deriving DecidableEq, Repr

/-- api.WordRequest: `min_length=1` on the field, then the
`validate_hebrew` validator; a failure is a 422 client-error response. -/
def wordRequestValidate (w : List Char) : Except (List Char) (List Char) :=
  if w.length < 1 then
    .error "ensure this value has at least 1 characters".toList
  else if _normalize w = [] then
    .error "Word must contain at least one Hebrew character".toList
  else .ok w

/-- POST /gematria/calculate: validate, then return the word, its normalized
form and its gematria value; the store is not touched. -/
def calculate_gematria (word : List Char) (st : Store) :
    Except (List Char) (GematriaResponse × Store) :=
  match wordRequestValidate word with
  | .error e => .error e
  | .ok w =>
    .ok ({ word := w, normalized := _normalize w, gematria := get_gematria w }, st)

/-- Row-to-response conversion used by /gematria/top. -/
def toGematriaResponse (w : GematriaWord) : GematriaResponse :=
  { word := w.text, normalized := w.normalized, gematria := w.gematria }

/-- SQL `ORDER BY created_at DESC`: most recently created first. -/
def byCreatedDesc (a b : GematriaWord) : Prop :=
  b.created_at ≤ a.created_at

instance : DecidableRel byCreatedDesc :=
  fun a b => Nat.decLe b.created_at a.created_at

instance : IsTotal GematriaWord byCreatedDesc :=
  ⟨fun a b => Nat.le_total b.created_at a.created_at⟩

instance : IsTrans GematriaWord byCreatedDesc :=
  ⟨fun _ _ _ h1 h2 => Nat.le_trans h2 h1⟩

/-- POST /gematria/top (api.get_top_words): filter the table on the
requested gematria value, order by `created_at` descending, truncate to
`limit`, and also report the total matching count. -/
def get_top_words (st : Store) (g : Nat) (lim : Nat) : TopWordsResponse :=
  { gematria := g
  , count := (st.filter (fun w => w.gematria == g)).length
  , words :=
      ((List.insertionSort byCreatedDesc
          (st.filter (fun w => w.gematria == g))).take lim).map toGematriaResponse }

/- ================= reachable states and the invariant ================= -/

/-- Recomputing a gematria value directly from the Letter-Value Table
(unknown characters contribute 0). -/
def tableValue (c : Char) : Nat :=
  (dictGet GEMATRIA_MAP c).getD 0

/-- Sum of the table values of a stored `normalized` string. -/
def tableSum (l : List Char) : Nat :=
  (l.map tableValue).sum

/-- The Word Record invariant of the Lookup Store: `normalized` is unique
across all records, and every record's `gematria` is recomputable from its
`normalized` via the Letter-Value Table. -/
def storeInv (st : Store) : Prop :=
  st.Pairwise (fun a b => a.normalized ≠ b.normalized) ∧
  ∀ r ∈ st, r.gematria = tableSum r.normalized

/-- The states the write path can produce: the empty table, plus any number
of successful ingestion inserts.  The lookup endpoint reads the store but
returns no new state, so it cannot leave this set. -/
inductive Reachable : Store → Prop
  | init : Reachable []
  | ingest (st : Store) (line : List Char) (t : Nat) (st' : Store) :
      Reachable st → seedLine st line t = some st' → Reachable st'

/- ================= character-level lemmas ================= -/

/-- The 27 code points U+05D0 through U+05EA, in code-point order: the 22
base letters interleaved with the 5 final forms. -/
def hebrewLetters : List Char :=
  ['א', 'ב', 'ג', 'ד', 'ה', 'ו', 'ז', 'ח', 'ט', 'י', 'ך', 'כ', 'ל', 'ם', 'מ',
   'ן', 'נ', 'ס', 'ע', 'ף', 'פ', 'ץ', 'צ', 'ק', 'ר', 'ש', 'ת']

lemma mem_hebrewLetters_of_seedKeep (c : Char) (h : seed_db.seedKeep c = true) :
    c ∈ hebrewLetters := by
  have h' : 0x05D0 ≤ c.toNat ∧ c.toNat ≤ 0x05EA := by
    simpa [seed_db.seedKeep] using h
  obtain ⟨n, hn⟩ : ∃ n, c.toNat = n := ⟨_, rfl⟩
  have hc : c = Char.ofNat n := by
    rw [← hn, Char.ofNat_toNat]
  rw [hn] at h'
  obtain ⟨h1, h2⟩ := h'
  interval_cases n <;> simp [hc, hebrewLetters]

/-- The api regex keep-class and the seed regex keep-class decide the same
set of characters: the five final-form code points named explicitly in the
api class already lie inside the range U+05D0–U+05EA. -/
lemma isHebrewKeep_eq_seedKeep (c : Char) :
    isHebrewKeep c = seed_db.seedKeep c := by
  rw [Bool.eq_iff_iff]
  simp only [isHebrewKeep, seed_db.seedKeep, decide_eq_true_eq]
  omega

/-- A kept letter is never a niqqud or cantillation mark: the ranges
U+0591–U+05C7 and U+05D0–U+05EA are disjoint. -/
lemma keep_and_not_mark (c : Char) :
    (isHebrewKeep c && !isNiqqudOrTaamim c) = seed_db.seedKeep c := by
  rw [Bool.eq_iff_iff]
  simp only [Bool.and_eq_true, Bool.not_eq_true', isHebrewKeep,
    isNiqqudOrTaamim, seed_db.seedKeep, decide_eq_true_eq, decide_eq_false_iff_not]
  omega

/-- backend._normalize is one filter by the seed keep-class. -/
lemma _normalize_eq_filter (s : List Char) :
    _normalize s = s.filter seed_db.seedKeep := by
  unfold _normalize
  rw [List.filter_filter]
  simp only [keep_and_not_mark]

lemma seedKeep_of_mem_normalize {s : List Char} {c : Char}
    (h : c ∈ _normalize s) : seed_db.seedKeep c = true := by
  rw [_normalize_eq_filter] at h
  exact (List.mem_filter.mp h).2

/-- On any kept letter the two dict literals agree, and the backend map is
defined. -/
lemma dict_agree_of_seedKeep (c : Char) (h : seed_db.seedKeep c = true) :
    dictGet seed_db.gematria_values c = dictGet GEMATRIA_MAP c ∧
      (dictGet GEMATRIA_MAP c).isSome = true := by
  have hc := mem_hebrewLetters_of_seedKeep c h
  fin_cases hc <;> exact ⟨by decide, by decide⟩

/- ================= list-level lemmas ================= -/

/-- On a string all of whose characters the backend map defines, the raw
dict indexing of the breakdown comprehension never raises. -/
lemma lookupPairs_eq (cs : List Char)
    (h : ∀ c ∈ cs, (dictGet GEMATRIA_MAP c).isSome = true) :
    lookupPairs cs = some (cs.map (fun c => (c, (dictGet GEMATRIA_MAP c).getD 0))) := by
  induction cs with
  | nil => rfl
  | cons c cs ih =>
    obtain ⟨v, hv⟩ := Option.isSome_iff_exists.mp (h c (by simp))
    rw [lookupPairs, hv, ih (fun a ha => h a (List.mem_cons_of_mem _ ha))]
    simp [hv]

lemma tableSum_cons (c : Char) (cs : List Char) :
    tableSum (c :: cs) = tableValue c + tableSum cs := by
  simp [tableSum]

/-- On a string of kept letters, the seed script's raw-indexing sum succeeds
and produces exactly the Letter-Value-Table sum. -/
lemma sumValues_eq (cs : List Char) (h : ∀ c ∈ cs, seed_db.seedKeep c = true) :
    seed_db.sumValues cs = some (tableSum cs) := by
  induction cs with
  | nil => rfl
  | cons c cs ih =>
    obtain ⟨hagree, hsome⟩ := dict_agree_of_seedKeep c (h c (by simp))
    obtain ⟨v, hv⟩ := Option.isSome_iff_exists.mp hsome
    rw [seed_db.sumValues, hagree, hv, ih (fun a ha => h a (List.mem_cons_of_mem _ ha))]
    simp [tableSum_cons, tableValue, hv]

lemma filter_seedKeep_idem (s : List Char) :
    (s.filter seed_db.seedKeep).filter seed_db.seedKeep = s.filter seed_db.seedKeep := by
  rw [List.filter_filter]
  simp

/-- Normalizing an already-normalized string changes nothing. -/
lemma _normalize_idem (s : List Char) :
    _normalize (_normalize s) = _normalize s := by
  rw [_normalize_eq_filter (_normalize s), _normalize_eq_filter s,
    filter_seedKeep_idem]

/-- get_gematria as a Letter-Value-Table sum of the normalized form. -/
lemma get_gematria_eq_tableSum (s : List Char) :
    get_gematria s = tableSum (_normalize s) := rfl

/- ================= claim theorems: the computational core ================= -/

/-- Claim C3: normalize, gematria_value and breakdown are total over all
strings; in particular every character surviving normalization is a key of
the Letter-Value Table, so the dict indexing inside the breakdown never
raises. -/
theorem core_operations_total (s : List Char) :
    (∀ c ∈ _normalize s, (dictGet GEMATRIA_MAP c).isSome = true) ∧
    ∃ l, gematria_breakdown s = some l := by
  have hkeys : ∀ c ∈ _normalize s, (dictGet GEMATRIA_MAP c).isSome = true :=
    fun c hc => (dict_agree_of_seedKeep c (seedKeep_of_mem_normalize hc)).2
  exact ⟨hkeys, _, lookupPairs_eq _ hkeys⟩

/-- Witness for C3 at a concrete input with niqqud, Latin letters and a
space. -/
theorem core_operations_total_witness :
    ∃ l, gematria_breakdown ("בְּרֵאשִׁית abc".toList) = some l :=
  (core_operations_total _).2

/-- Claim C4: the gematria value of a string is the sum of the per-letter
values in its breakdown. -/
theorem gematria_eq_breakdown_sum (s : List Char) (l : List (Char × Nat))
    (h : gematria_breakdown s = some l) :
    get_gematria s = (l.map (fun p => p.2)).sum := by
  have hkeys : ∀ c ∈ _normalize s, (dictGet GEMATRIA_MAP c).isSome = true :=
    fun c hc => (dict_agree_of_seedKeep c (seedKeep_of_mem_normalize hc)).2
  rw [gematria_breakdown, lookupPairs_eq _ hkeys, Option.some_inj] at h
  subst h
  rw [List.map_map]
  rfl

/-- Witness for C4 on the word בראשית. -/
theorem gematria_eq_breakdown_sum_witness :
    gematria_breakdown ("בראשית".toList) =
      some [('ב', 2), ('ר', 200), ('א', 1), ('ש', 300), ('י', 10), ('ת', 400)] ∧
    get_gematria ("בראשית".toList) =
      (([('ב', 2), ('ר', 200), ('א', 1), ('ש', 300), ('י', 10), ('ת', 400)] :
        List (Char × Nat)).map (fun p => p.2)).sum :=
  ⟨by decide, gematria_eq_breakdown_sum _ _ (by decide)⟩

/-- Claim C5: scoring is invariant under normalization. -/
theorem gematria_normalize_invariant (s : List Char) :
    get_gematria (_normalize s) = get_gematria s := by
  rw [get_gematria_eq_tableSum, get_gematria_eq_tableSum, _normalize_idem]

/-- Claim C8: normalizing בראשית-with-niqqud yields the bare letters, whose
gematria value is 913, with the stated per-letter values. -/
theorem bereshit_example :
    _normalize ("בְּרֵאשִׁית".toList) = "בראשית".toList ∧
    get_gematria ("בראשית".toList) = 913 ∧
    dictGet GEMATRIA_MAP 'ב' = some 2 ∧ dictGet GEMATRIA_MAP 'ר' = some 200 ∧
    dictGet GEMATRIA_MAP 'א' = some 1 ∧ dictGet GEMATRIA_MAP 'ש' = some 300 ∧
    dictGet GEMATRIA_MAP 'י' = some 10 ∧ dictGet GEMATRIA_MAP 'ת' = some 400 := by
  decide

/-- Claim C9: the mark-removal filter and the letter filter of
backend._normalize commute, and either order produces exactly
backend._normalize. -/
theorem normalization_steps_commute (s : List Char) :
    (s.filter (fun c => !isNiqqudOrTaamim c)).filter isHebrewKeep
      = (s.filter isHebrewKeep).filter (fun c => !isNiqqudOrTaamim c) ∧
    (s.filter (fun c => !isNiqqudOrTaamim c)).filter isHebrewKeep = _normalize s := by
  have hpt : ∀ c, (!isNiqqudOrTaamim c && isHebrewKeep c) = seed_db.seedKeep c := by
    intro c
    rw [Bool.and_comm]
    exact keep_and_not_mark c
  refine ⟨?_, rfl⟩
  rw [List.filter_filter, List.filter_filter]
  simp only [keep_and_not_mark, hpt]

/-- Claim C10: the seeding script's normalization and the backend's
normalization are extensionally equal. -/
theorem seed_normalize_eq_api_normalize (s : List Char) :
    seed_db.normalize s = _normalize s := by
  rw [_normalize_eq_filter]
  rfl

/- ================= claim theorems: the API and the store ================= -/

/-- Claim C7: the calculation endpoint rejects any input whose normalized
form is empty with a client-error response, and on any other input succeeds
with the original text, normalized text and gematria value, leaving the
store untouched. -/
theorem calculate_rejects_empty_no_persistence (w : List Char) (st : Store) :
    (_normalize w = [] → ∃ e, calculate_gematria w st = .error e) ∧
    (_normalize w ≠ [] →
      calculate_gematria w st =
        .ok ({ word := w, normalized := _normalize w,
               gematria := get_gematria w }, st)) := by
  constructor
  · intro h
    by_cases hl : w.length < 1
    · exact ⟨"ensure this value has at least 1 characters".toList,
        by simp [calculate_gematria, wordRequestValidate, hl]⟩
    · exact ⟨"Word must contain at least one Hebrew character".toList,
        by simp [calculate_gematria, wordRequestValidate, hl, h]⟩
  · intro h
    have hl : ¬ w.length < 1 := by
      intro hw
      have hnil : w = [] := List.eq_nil_of_length_eq_zero (by omega)
      exact h (by rw [hnil]; rfl)
    simp [calculate_gematria, wordRequestValidate, hl, h]

/-- Witness for C7: a Hebrew-free word is rejected, a Hebrew word is
answered with its value and an unchanged store. -/
theorem calculate_rejects_empty_no_persistence_witness :
    (∃ e, calculate_gematria ("abc 123".toList) [] = .error e) ∧
    calculate_gematria ("בראשית".toList) [] =
      .ok ({ word := "בראשית".toList, normalized := _normalize ("בראשית".toList),
             gematria := get_gematria ("בראשית".toList) }, []) :=
  ⟨(calculate_rejects_empty_no_persistence _ _).1 (by decide),
   (calculate_rejects_empty_no_persistence _ _).2 (by decide)⟩

/-- Claim C2: every reachable state of the Lookup Store satisfies the Word
Record invariant — `normalized` unique across records, `gematria` equal to
the Letter-Value-Table sum of `normalized`.  The lookup endpoint reads the
store and produces no new state, so the write path (ingestion) is the only
state producer. -/
theorem reachable_storeInv (st : Store) (h : Reachable st) : storeInv st := by
  induction h with
  | init => exact ⟨List.Pairwise.nil, by simp⟩
  | ingest st line t st' _ hstep ih =>
    have hall : ∀ c ∈ seed_db.normalize line, seed_db.seedKeep c = true :=
      fun c hc => (List.mem_filter.mp hc).2
    have hv : seed_db.gematria_value (seed_db.normalize line) =
        some (tableSum (seed_db.normalize line)) := sumValues_eq _ hall
    have hsl : seedLine st line t =
        insertWord st
          { text := pyStrip line, normalized := seed_db.normalize line,
            gematria := tableSum (seed_db.normalize line), created_at := t } := by
      unfold seedLine
      rw [hv]
    rw [hsl] at hstep
    unfold insertWord at hstep
    split at hstep
    · exact absurd hstep (by simp)
    rename_i hdup
    rw [Option.some_inj] at hstep
    subst hstep
    obtain ⟨hpw, hval⟩ := ih
    constructor
    · rw [List.pairwise_append]
      refine ⟨hpw, List.pairwise_singleton _ _, ?_⟩
      intro a ha b hb heq
      rw [List.mem_singleton] at hb
      subst hb
      exact hdup (List.any_eq_true.mpr ⟨a, ha, by simp [heq]⟩)
    · intro r hr
      rcases List.mem_append.mp hr with h1 | h2
      · exact hval r h1
      · rw [List.mem_singleton] at h2
        subst h2
        rfl

/-- Witness for C2: the store reached by ingesting one real word satisfies
the invariant. -/
theorem reachable_storeInv_witness :
    storeInv [{ text := "בראשית".toList, normalized := "בראשית".toList,
                gematria := 913, created_at := 0 }] :=
  reachable_storeInv _
    (Reachable.ingest [] ("בראשית".toList) 0 _ Reachable.init (by decide))

/-- A list permuting a two-element list is one of its two arrangements. -/
lemma perm_pair_cases {α : Type} {x y : α} {l : List α} (h : l.Perm [x, y]) :
    l = [x, y] ∨ l = [y, x] := by
  have hlen : l.length = 2 := h.length_eq
  obtain ⟨u, v, rfl⟩ : ∃ u v, l = [u, v] := by
    match l, hlen with
    | [u, v], _ => exact ⟨u, v, rfl⟩
  have hu : u ∈ [x, y] := h.subset (by simp)
  rcases (by simpa using hu : u = x ∨ u = y) with rfl | rfl
  · left
    have hv : [v].Perm [y] := h.cons_inv
    rw [List.perm_singleton.mp hv]
  · right
    have h2 : ([u, v] : List α).Perm [u, x] := h.trans (List.Perm.swap u x [])
    have hv : [v].Perm [x] := h2.cons_inv
    rw [List.perm_singleton.mp hv]

/-- Claim C6: with exactly three records of gematria 913, 913 and 26 in the
store (in any creation order), the lookup for 913 with limit 1 reports
count 2 but returns only the most recently created matching record; in
general the returned list holds at most `limit` records, `count` is the
total number of matching records, and the ordering step sorts
most-recently-created first. -/
theorem top_words_913 (st : Store) (a b c : GematriaWord)
    (hperm : st.Perm [a, b, c])
    (ha : a.gematria = 913) (hb : b.gematria = 913) (hc : c.gematria = 26)
    (hab : a.created_at < b.created_at) :
    get_top_words st 913 1 =
      { gematria := 913, count := 2, words := [toGematriaResponse b] } ∧
    (∀ (st' : Store) (g lim : Nat),
      (get_top_words st' g lim).words.length ≤ lim ∧
      (get_top_words st' g lim).count =
        (st'.filter (fun w => w.gematria == g)).length) ∧
    (∀ l : List GematriaWord,
      List.Sorted byCreatedDesc (List.insertionSort byCreatedDesc l)) := by
  refine ⟨?_, fun st' g lim => ⟨?_, rfl⟩,
    fun l => List.sorted_insertionSort byCreatedDesc l⟩
  · have hfilter : (st.filter (fun w => w.gematria == 913)).Perm [a, b] := by
      have h1 : ([a, b, c].filter (fun w => w.gematria == 913)) = [a, b] := by
        simp [List.filter, ha, hb, hc]
      have h2 := hperm.filter (fun w => w.gematria == 913)
      rwa [h1] at h2
    have hcnt : (st.filter (fun w => w.gematria == 913)).length = 2 :=
      hfilter.length_eq
    have hsort : List.insertionSort byCreatedDesc
        (st.filter (fun w => w.gematria == 913)) = [b, a] := by
      rcases perm_pair_cases hfilter with he | he <;> rw [he]
      · have hr : ¬ byCreatedDesc a b := by
          simp only [byCreatedDesc]
          omega
        simp [List.insertionSort, List.orderedInsert, hr]
      · have hr : byCreatedDesc b a := by
          simp only [byCreatedDesc]
          omega
        simp [List.insertionSort, List.orderedInsert, hr]
    unfold get_top_words
    rw [hsort, hcnt]
    rfl
  · unfold get_top_words
    simp only [List.length_map]
    exact List.length_take_le _ _

/-- Witness for C6: three concrete records, the two 913-valued ones created
at times 0 and 1 and the 26-valued one at time 2. -/
theorem top_words_913_witness :
    get_top_words
      [{ text := "בראשית".toList, normalized := "בראשית".toList,
         gematria := 913, created_at := 0 },
       { text := "אגד שצת".toList, normalized := "אגדשצת".toList,
         gematria := 913, created_at := 1 },
       { text := "יהוה".toList, normalized := "יהוה".toList,
         gematria := 26, created_at := 2 }] 913 1 =
      { gematria := 913, count := 2,
        words := [toGematriaResponse
          { text := "אגד שצת".toList, normalized := "אגדשצת".toList,
            gematria := 913, created_at := 1 }] } :=
  (top_words_913 _ _ _ _ (List.Perm.refl _) rfl rfl rfl (by decide)).1

/-- Claim C1 (refuted by the code): the batch-ingestion loop of seed_db.main
contains no test that skips a line, so a letter-less line is inserted as a
Word Record with empty `normalized` and gematria 0 — and a second
letter-less line then collides with it on the unique constraint, failing
the whole batch. -/
theorem seed_inserts_letterless_line :
    seedMain ["hello".toList] =
      some [{ text := "hello".toList, normalized := [], gematria := 0,
              created_at := 0 }] ∧
    seedMain ["hello".toList, "world".toList] = none := by
  exact ⟨rfl, rfl⟩
